import Mathlib

/-!
# Verification of the SigV4 signing core (`src/auth.ts`)

A shallow embedding of the request-signing pipeline of `src/auth.ts`
(canonical request → hash → signable string → key derivation → signature →
authorization header), together with proofs and refutations of the
specification's claims about it.

Modelling conventions, fixed once here:

* JavaScript strings are modelled by Lean `String` (sequences of Unicode
  scalar values).  Where JavaScript semantics operate on UTF-16 code units
  (the default `Array.prototype.sort` comparator on strings), we convert a
  string to its UTF-16 code-unit sequence explicitly (`utf16Units`); this is
  faithful for every well-formed (surrogate-balanced) JavaScript string.
* JavaScript objects used as string-keyed maps (`query`, `headers`) are
  modelled as association lists in enumeration order, with the keys distinct
  (a JavaScript object cannot hold two identical keys).
* `Array.prototype.sort` is required by ECMA-262 to be stable; we model it by
  a stable sort (`jsSort`, an insertion sort, stable for any comparator that
  is a total preorder — true of every comparator the source uses).
* `String.prototype.toLowerCase` is modelled by its action on ASCII
  (`A`–`Z` ↦ `a`–`z`); the source only ever lowercases HTTP header names.
* `String.prototype.localeCompare` (used by `caseInsensitiveSort` in
  `createCanonicalRequest`) is modelled by ICU root-collation primary
  weights, faithfully on the character set
  `{'-', '~', '0'–'9', 'a'–'z'}` (punctuation < symbols < digits < letters);
  theorems that depend on its behaviour restrict keys to that set, and the
  one counterexample that exercises it uses only `'~'` and letters.
* Node's `crypto` (`createHash('sha256')`, `createHmac('sha256', key)`) is
  modelled by an executable SHA-256 / HMAC-SHA-256 over byte lists
  (`Nat` arithmetic, everything reduced mod 2^32), per FIPS 180-4 and
  RFC 2104; `update(string)` uses UTF-8, `digest('hex')` lowercase hex,
  exactly as in Node.
-/

namespace Sig4

/-! ## JavaScript string primitives -/

/-- The UTF-16 code units of one Unicode scalar value (surrogate pair for
astral characters), as JavaScript strings store them. -/
def charUtf16 (c : Char) : List Nat :=
  if c.toNat < 65536 then [c.toNat]
  else [55296 + (c.toNat - 65536) / 1024, 56320 + (c.toNat - 65536) % 1024]

/-- UTF-16 code units of a string. -/
def utf16Units (s : String) : List Nat :=
  (s.data.map charUtf16).flatten

/-- Lexicographic `≤` on lists of naturals. -/
def lexLE : List Nat → List Nat → Bool
  | [], _ => true
  | _ :: _, [] => false
  | a :: as, b :: bs =>
    if a < b then true
    else if b < a then false
    else lexLE as bs

/-- The default `Array.prototype.sort` string comparator as a `≤`:
`utf16LE a b` iff `a` comes no later than `b` in UTF-16 code-unit order. -/
def utf16LE (a b : String) : Bool :=
  lexLE (utf16Units a) (utf16Units b)

/-- Order `≤` on strings by Unicode code points (the order the spec ascribes to the
canonical query string); agrees with `utf16LE` exactly on strings without
astral characters. -/
def codepointLE (a b : String) : Bool :=
  lexLE (a.data.map Char.toNat) (b.data.map Char.toNat)

/-- Model of JavaScript character lowercasing, on ASCII: `A`–`Z` ↦ `a`–`z`. -/
def lowerChar (c : Char) : Char :=
  if 65 ≤ c.toNat ∧ c.toNat ≤ 90 then Char.ofNat (c.toNat + 32) else c

/-- Model of `String.prototype.toLowerCase`, on ASCII. -/
def lowerStr (s : String) : String :=
  ⟨s.data.map lowerChar⟩

/-- ICU root-collation primary weight of a character, the model of
`localeCompare`.  Faithful on `{'-', '~', '0'–'9', 'a'–'z'}`: dash
punctuation (`-`) < symbols (`~`) < digits < lowercase letters, each class
internally in code-point order.  Characters outside this set are mapped
after all of them; no theorem relies on their relative order. -/
def collationWeight (c : Char) : Nat :=
  if c.toNat = 45 then 1
  else if c.toNat = 126 then 2
  else if 48 ≤ c.toNat ∧ c.toNat ≤ 57 then 16 + c.toNat
  else if 97 ≤ c.toNat ∧ c.toNat ≤ 122 then 100 + c.toNat
  else 1000 + c.toNat

/-- Comparator `a.localeCompare(b) ≤ 0`, in the collation model. -/
def localeLE (a b : String) : Bool :=
  lexLE (a.data.map collationWeight) (b.data.map collationWeight)

/-- Insert into a sorted list, before the first element not `≤`-smaller:
the insertion step of a stable sort. -/
def jsInsert (le : α → α → Bool) (a : α) : List α → List α
  | [] => [a]
  | b :: l => if le a b then a :: b :: l else b :: jsInsert le a l

/-- Stable sort modelling `Array.prototype.sort` with comparator `le`
(`le a b` ↔ `comparator(a, b) ≤ 0`).  ECMA-262 requires sort to be stable;
for a consistent comparator the stable result is unique, so any stable sort
is a faithful model. -/
def jsSort (le : α → α → Bool) : List α → List α
  | [] => []
  | a :: l => jsInsert le a (jsSort le l)

/-- JavaScript `\s` (the `RegExp` whitespace class): tab, LF, VT, FF, CR,
space, NBSP, Ogham space, the U+2000–U+200A spaces, LS, PS, NNBSP, MMSP,
ideographic space, and the BOM. -/
def isJsSpace (c : Char) : Bool :=
  c.toNat = 9 || c.toNat = 10 || c.toNat = 11 || c.toNat = 12 ||
  c.toNat = 13 || c.toNat = 32 || c.toNat = 160 || c.toNat = 5760 ||
  (8192 ≤ c.toNat && c.toNat ≤ 8202) || c.toNat = 8232 ||
  c.toNat = 8233 || c.toNat = 8239 || c.toNat = 8287 ||
  c.toNat = 12288 || c.toNat = 65279

/-- Model of `String.prototype.trim`: strip `\s` characters from both ends. -/
def jsTrimChars (l : List Char) : List Char :=
  ((l.dropWhile isJsSpace).reverse.dropWhile isJsSpace).reverse

/-- Model of `replace(/\s+/g, ' ')`: each maximal run of `\s` characters becomes one
space.  The flag records whether we are inside a run already emitted. -/
def collapseWsAux : Bool → List Char → List Char
  | _, [] => []
  | inRun, c :: cs =>
    if isJsSpace c then
      if inRun then collapseWsAux true cs else ' ' :: collapseWsAux true cs
    else c :: collapseWsAux false cs

/-- Model of `replace(/\s+/g, ' ')` on a string's characters. -/
def collapseWs (l : List Char) : List Char :=
  collapseWsAux false l

/-- Model of `Array.prototype.join(sep)`. -/
def joinSep (sep : String) : List String → String
  | [] => ""
  | [s] => s
  | s :: l => s ++ sep ++ joinSep sep l

/-- UTF-8 bytes of one Unicode scalar value, as Node's
`Hash.update(string)` encodes it. -/
def charUtf8 (c : Char) : List Nat :=
  let n := c.toNat
  if n < 128 then [n]
  else if n < 2048 then [192 + n / 64, 128 + n % 64]
  else if n < 65536 then [224 + n / 4096, 128 + n / 64 % 64, 128 + n % 64]
  else [240 + n / 262144, 128 + n / 4096 % 64, 128 + n / 64 % 64, 128 + n % 64]

/-- UTF-8 bytes of a string. -/
def utf8Bytes : List Char → List Nat
  | [] => []
  | c :: cs => charUtf8 c ++ utf8Bytes cs

/-- UTF-8 bytes of a string. -/
def strBytes (s : String) : List Nat :=
  utf8Bytes s.data

/-! ## SHA-256 (FIPS 180-4) over byte lists

Words are `Nat`s reduced mod 2^32.  The 512-bit blocks, the 8-word state
and the 16-word schedule window are each packed into a single `Nat`
(big-endian, most significant first), so that a type checker evaluates the
compression through fast arbitrary-precision arithmetic rather than
through long lists of cells.  The byte-list entry point `sha256` is the
model of Node's `createHash('sha256')` digest; the published test vectors
(empty-input hash, the AWS signing-key and signature vectors) pin the
implementation down. -/

/-- Word `i` (counting from the least significant end) of a packed
sequence of 32-bit words. -/
def w32 (x i : Nat) : Nat := x / 2 ^ (32 * i) % 4294967296

/-- Right-rotation of a 32-bit word. -/
def rotr32 (n x : Nat) : Nat :=
  x / 2 ^ n + x % 2 ^ n * 2 ^ (32 - n)

/-- Bitwise complement of a 32-bit word. -/
def not32 (x : Nat) : Nat := x ^^^ 4294967295

/-- FIPS 180-4 `Ch`. -/
def ch32 (x y z : Nat) : Nat := (x &&& y) ^^^ (not32 x &&& z)

/-- FIPS 180-4 `Maj`. -/
def maj32 (x y z : Nat) : Nat := (x &&& y) ^^^ (x &&& z) ^^^ (y &&& z)

/-- FIPS 180-4 `Σ₀`. -/
def bigSigma0 (x : Nat) : Nat := rotr32 2 x ^^^ rotr32 13 x ^^^ rotr32 22 x

/-- FIPS 180-4 `Σ₁`. -/
def bigSigma1 (x : Nat) : Nat := rotr32 6 x ^^^ rotr32 11 x ^^^ rotr32 25 x

/-- FIPS 180-4 `σ₀`. -/
def smallSigma0 (x : Nat) : Nat := rotr32 7 x ^^^ rotr32 18 x ^^^ x / 2 ^ 3

/-- FIPS 180-4 `σ₁`. -/
def smallSigma1 (x : Nat) : Nat := rotr32 17 x ^^^ rotr32 19 x ^^^ x / 2 ^ 10

/-- Strict application for `Nat`: semantically `f x`, but the pattern
match forces `x` to a numeral before `f` sees it, so that a call-by-name
evaluator runs chained state updates in constant stack depth. -/
def forceNat (x : Nat) (f : Nat → Nat) : Nat :=
  match x with
  | 0 => f 0
  | n + 1 => f (n + 1)

/-- The 64 SHA-256 round constants, packed most significant (round 0)
first. -/
def shaK : Nat :=
  0x428a2f9871374491b5c0fbcfe9b5dba53956c25b59f111f1923f82a4ab1c5ed5d807aa9812835b01243185be550c7dc372be5d7480deb1fe9bdc06a7c19bf174e49b69c1efbe47860fc19dc6240ca1cc2de92c6f4a7484aa5cb0a9dc76f988da983e5152a831c66db00327c8bf597fc7c6e00bf3d5a7914706ca63511429296727b70a852e1b21384d2c6dfc53380d13650a7354766a0abb81c2c92e92722c85a2bfe8a1a81a664bc24b8b70c76c51a3d192e819d6990624f40e3585106aa07019a4c1161e376c082748774c34b0bcb5391c0cb34ed8aa4a5b9cca4f682e6ff3748f82ee78a5636f84c878148cc7020890befffaa4506cebbef9a3f7c67178f2

/-- The SHA-256 initial hash value, the 8 words packed `a` first. -/
def shaH0 : Nat :=
  0x6a09e667bb67ae853c6ef372a54ff53a510e527f9b05688c1f83d9ab5be0cd19

/-- One SHA-256 round on the packed 8-word state, with round constant `k`
and schedule word `w`: the new state is
`(t1 + t2, a, b, c, d + t1, e, f, g)`. -/
def shaRound (k w st : Nat) : Nat :=
  let a := w32 st 7
  let b := w32 st 6
  let c := w32 st 5
  let d := w32 st 4
  let e := w32 st 3
  let f := w32 st 2
  let g := w32 st 1
  let h := w32 st 0
  let t1 := (h + bigSigma1 e + ch32 e f g + k + w) % 4294967296
  let t2 := (bigSigma0 a + maj32 a b c) % 4294967296
  (t1 + t2) % 4294967296 * 2 ^ 224 + a * 2 ^ 192 + b * 2 ^ 160 + c * 2 ^ 128 +
    (d + t1) % 4294967296 * 2 ^ 96 + e * 2 ^ 64 + f * 2 ^ 32 + g

/-- The 64 compression rounds.  The fuel counts down from 64, so the
current round is `64 - (fuel + 1)` and its constant is word `fuel` of
`shaK`.  `win` holds the 16 most recent schedule words, the oldest most
significant: each step consumes the oldest as this round's `w` and appends
the next word of the FIPS 180-4 schedule recurrence
`W(t) = σ₁(W(t-2)) + W(t-7) + σ₀(W(t-15)) + W(t-16)`. -/
def shaRounds : Nat → Nat → Nat → Nat
  | 0, _, st => st
  | fuel + 1, win, st =>
    let k := w32 shaK fuel
    let w := w32 win 15
    let wnext :=
      (smallSigma1 (w32 win 1) + w32 win 6 + smallSigma0 (w32 win 14) + w) % 4294967296
    forceNat (shaRound k w st) fun st' =>
      forceNat (win % 2 ^ 480 * 2 ^ 32 + wnext) fun win' =>
        shaRounds fuel win' st'

/-- Word-wise sum mod 2^32 of two packed 8-word states. -/
def addWords8 (x y : Nat) : Nat :=
  (w32 x 7 + w32 y 7) % 4294967296 * 2 ^ 224 +
  (w32 x 6 + w32 y 6) % 4294967296 * 2 ^ 192 +
  (w32 x 5 + w32 y 5) % 4294967296 * 2 ^ 160 +
  (w32 x 4 + w32 y 4) % 4294967296 * 2 ^ 128 +
  (w32 x 3 + w32 y 3) % 4294967296 * 2 ^ 96 +
  (w32 x 2 + w32 y 2) % 4294967296 * 2 ^ 64 +
  (w32 x 1 + w32 y 1) % 4294967296 * 2 ^ 32 +
  (w32 x 0 + w32 y 0) % 4294967296

/-- Compress one 512-bit block (packed big-endian) into the state. -/
def shaBlock (st block : Nat) : Nat :=
  addWords8 st (shaRounds 64 block st)

/-- Compress the remaining `n` blocks of the padded message, first (most
significant) block first. -/
def shaBlocks : Nat → Nat → Nat → Nat
  | 0, _, st => st
  | n + 1, msg, st =>
    forceNat (shaBlock st (msg / 2 ^ (512 * n) % 2 ^ 512)) (shaBlocks n msg)

/-- SHA-256 of a message given as its bytes packed big-endian into one
`Nat` together with the byte count: append `0x80`, `z` zero bytes so the
length becomes 56 mod 64, and the 8-byte big-endian bit length; then
compress block by block. -/
def sha256Packed (msg len : Nat) : Nat :=
  let z := (119 - len % 64) % 64
  let padded := msg * 2 ^ (8 * (z + 9)) + 128 * 2 ^ (8 * (z + 8)) + 8 * len
  shaBlocks ((len + 9 + z) / 64) padded shaH0

/-- Bytes (each `< 256`) packed big-endian into one `Nat`. -/
def packBytes (l : List Nat) : Nat :=
  l.foldl (fun a b => a * 256 + b) 0

/-- The `n` big-endian bytes of `x`. -/
def unpackBytes : Nat → Nat → List Nat
  | 0, _ => []
  | n + 1, x => x / 2 ^ (8 * n) % 256 :: unpackBytes n x

/-- SHA-256 of a byte list, as the 32 digest bytes. -/
def sha256 (msg : List Nat) : List Nat :=
  unpackBytes 32 (sha256Packed (packBytes msg) msg.length)

/-- Lowercase hexadecimal digit. -/
def hexDigit (n : Nat) : Char :=
  if n < 10 then Char.ofNat (48 + n) else Char.ofNat (87 + n)

/-- Lowercase hexadecimal of a byte list (Node's `digest('hex')`). -/
def bytesToHexChars : List Nat → List Char
  | [] => []
  | b :: bs => hexDigit (b / 16) :: hexDigit (b % 16) :: bytesToHexChars bs

/-- Lowercase hexadecimal of a byte list, as a string. -/
def bytesToHex (bs : List Nat) : String :=
  ⟨bytesToHexChars bs⟩

/-- HMAC-SHA-256 (RFC 2104), as Node's `createHmac('sha256', key)`:
keys longer than the 64-byte block are first hashed, the key is zero-padded
to 64 bytes, and the digest is `H((K ⊕ opad) ‖ H((K ⊕ ipad) ‖ msg))`. -/
def hmacSha256 (key msg : List Nat) : List Nat :=
  let k0 := if 64 < key.length then sha256 key else key
  let kp := k0 ++ List.replicate (64 - k0.length) 0
  let inner := sha256 (kp.map (fun b => b ^^^ 54) ++ msg)
  sha256 (kp.map (fun b => b ^^^ 92) ++ inner)

/-! ## The signing pipeline of `src/auth.ts` -/

/-- The constant `algorithm = 'AWS4-HMAC-SHA256'`. -/
def algorithm : String := "AWS4-HMAC-SHA256"

/-- A header value: a single string or a sequence of strings
(`string | string[]` in the source). -/
inductive HeaderValue where
  | str (s : String)
  | seq (vs : List String)
deriving DecidableEq

/-- The `RequestHeaders` map, as an association list in enumeration order.  The
source's type also demands a `host` entry; that is a caller contract with no
runtime counterpart, so the model leaves it to hypotheses of the theorems
that need it. -/
def RequestHeaders := List (String × HeaderValue)

/-- Source `formatHeaderKey`: lowercase the key. -/
def formatHeaderKey (k : String) : String := lowerStr k

/-- Source `formatHeaderValue`: `v.trim().replace(/\s+/g, ' ')`. -/
def formatHeaderValue (v : String) : String :=
  ⟨collapseWs (jsTrimChars v.data)⟩

/-- Source `createSignedHeaders`:
`Object.keys(headers).map(formatHeaderKey).sort().join(';')`. -/
def createSignedHeaders (headers : List (String × HeaderValue)) : String :=
  joinSep ";" (jsSort utf16LE (headers.map fun p => formatHeaderKey p.1))

/-- The canonical query string of `createCanonicalRequest`:
`Object.keys(query).sort()` then `key=value` joined with `&`.  Since the
keys of a JavaScript object are distinct, sorting the keys and looking each
one up is the same as sorting the (key, value) pairs by key, which is how
the model writes it. -/
def createCanonicalQueryString (query : List (String × String)) : String :=
  joinSep "&"
    ((jsSort (fun p q => utf16LE p.1 q.1) query).map fun p => p.1 ++ "=" ++ p.2)

/-- The comparator `caseInsensitiveSort` of `createCanonicalRequest`:
`a.toLowerCase().localeCompare(b.toLowerCase())`, as a `≤`. -/
def caseInsensitiveLE (a b : String) : Bool :=
  localeLE (lowerStr a) (lowerStr b)

/-- One entry of the canonical headers block.  For a single-string value the
source emits `lowercase(key) : normalized value`; for a sequence value the
source's array branch emits only the normalized elements joined with `,`,
never mentioning the key — this asymmetry is in the source and is preserved
here. -/
def formatCanonicalHeaderEntry (k : String) (v : HeaderValue) : String :=
  match v with
  | .str s => formatHeaderKey k ++ ":" ++ formatHeaderValue s
  | .seq vs => joinSep "," (vs.map formatHeaderValue)

/-- The canonical headers block of `createCanonicalRequest`: keys sorted by
`caseInsensitiveSort`, one entry per key joined with `\n`, plus a trailing
`\n`. -/
def createCanonicalHeaders (headers : List (String × HeaderValue)) : String :=
  joinSep "\n"
    ((jsSort (fun p q => caseInsensitiveLE p.1 q.1) headers).map
      fun p => formatCanonicalHeaderEntry p.1 p.2) ++ "\n"

/-- Source `hashRequestPayload`: hex SHA-256 of the payload string. -/
def hashRequestPayload (payload : String) : String :=
  bytesToHex (sha256 (strBytes payload))

/-- A `RequestDescriptor`: the argument record of `createCanonicalRequest`. -/
structure RequestDescriptor where
  method : String
  uri : String
  query : List (String × String)
  headers : List (String × HeaderValue)
  payload : String

/-- Source `createCanonicalRequest`: the six fields joined with `\n`. -/
def createCanonicalRequest (d : RequestDescriptor) : String :=
  joinSep "\n"
    [d.method, d.uri, createCanonicalQueryString d.query,
     createCanonicalHeaders d.headers, createSignedHeaders d.headers,
     hashRequestPayload d.payload]

/-- Source `createCanonicalRequestHash`: hex SHA-256 of the canonical request. -/
def createCanonicalRequestHash (canonicalRequest : String) : String :=
  bytesToHex (sha256 (strBytes canonicalRequest))

/-- Source `requestScope`: `date/region/service/aws4_request`. -/
def requestScope (requestDate region service : String) : String :=
  requestDate ++ "/" ++ region ++ "/" ++ service ++ "/aws4_request"

/-- Source `extractRequestDate`: `requestDateTime.slice(0, 8)`.  JavaScript slices
by UTF-16 units; the model takes 8 characters, which coincides whenever the
first 8 units are not astral. -/
def extractRequestDate (requestDateTime : String) : String :=
  ⟨requestDateTime.data.take 8⟩

/-- Source `createRequestSignable`: algorithm, timestamp, credential scope and
canonical-request hash joined with `\n`. -/
def createRequestSignable
    (canonicalRequest requestDateTime region service : String) : String :=
  joinSep "\n"
    [algorithm, requestDateTime,
     requestScope (extractRequestDate requestDateTime) region service,
     createCanonicalRequestHash canonicalRequest]

/-- Source `createSigningKeyHmac`: the four-stage HMAC chain.  The source returns a
not-yet-digested `Hmac` object whose only use is `.digest()`; the model
returns those digest bytes. -/
def createSigningKeyHmac
    (secretAccessKey requestDate region service : String) : List Nat :=
  let kDate := hmacSha256 (strBytes ("AWS4" ++ secretAccessKey)) (strBytes requestDate)
  let kRegion := hmacSha256 kDate (strBytes region)
  let kService := hmacSha256 kRegion (strBytes service)
  hmacSha256 kService (strBytes "aws4_request")

/-- Source `createRequestSignature`: hex HMAC of the signable string under the
derived signing key. -/
def createRequestSignature (d : RequestDescriptor)
    (requestDateTime region service secretAccessKey : String) : String :=
  let canonicalRequest := createCanonicalRequest d
  let requestDate := extractRequestDate requestDateTime
  let requestSigningKey := createSigningKeyHmac secretAccessKey requestDate region service
  let signable := createRequestSignable canonicalRequest requestDateTime region service
  bytesToHex (hmacSha256 requestSigningKey (strBytes signable))

/-- Source `createRequestAuthorization`: the final `Authorization` header value. -/
def createRequestAuthorization (d : RequestDescriptor)
    (requestDateTime region service accessKeyId secretAccessKey : String) : String :=
  let requestDate := extractRequestDate requestDateTime
  let requestCredential := accessKeyId ++ "/" ++ requestScope requestDate region service
  let signedHeaders := createSignedHeaders d.headers
  let signature := createRequestSignature d requestDateTime region service secretAccessKey
  algorithm ++ " Credential=" ++ requestCredential ++ ", SignedHeaders=" ++
    signedHeaders ++ ", Signature=" ++ signature

/-! ## Statement-support definitions -/

/-- A canonical-headers entry as a function of the lowercased key and the
value — the shape through which header-key case provably cannot matter. -/
def entryOfLowered (q : String × HeaderValue) : String :=
  match q.2 with
  | .str s => q.1 ++ ":" ++ formatHeaderValue s
  | .seq vs => joinSep "," (vs.map formatHeaderValue)

/-- The spec's reading of `buildAuthorizationHeader` (§4.7, §8
"idempotence under re-derivation"): manually chain canonical request →
signable string → signing key → signature, then assemble the header from
the algorithm tag, credential scope, signed-header list and signature. -/
def buildAuthorizationHeaderSpec (d : RequestDescriptor)
    (requestDateTime region service accessKeyId secretAccessKey : String) : String :=
  let canonicalRequest := createCanonicalRequest d
  let signable := createRequestSignable canonicalRequest requestDateTime region service
  let signingKey :=
    createSigningKeyHmac secretAccessKey (extractRequestDate requestDateTime) region service
  let signature := bytesToHex (hmacSha256 signingKey (strBytes signable))
  algorithm ++ " Credential=" ++
    (accessKeyId ++ "/" ++ requestScope (extractRequestDate requestDateTime) region service) ++
    ", SignedHeaders=" ++ createSignedHeaders d.headers ++ ", Signature=" ++ signature

/-- The reference request of the repository's test suite (AWS's published
`GET` IAM `ListUsers` example). -/
def refDesc : RequestDescriptor :=
  { method := "GET"
    uri := "/"
    query := [("Action", "ListUsers"), ("Version", "2010-05-08")]
    headers := [("host", .str "iam.amazonaws.com"),
                ("Content-Type", .str "application/x-www-form-urlencoded; charset=utf-8"),
                ("X-Amz-Date", .str "20150830T123600Z")]
    payload := "" }

/-- The reference request with its header keys already lowercase — the
case-folding partner of `refDesc`. -/
def refDescLower : RequestDescriptor :=
  { method := "GET"
    uri := "/"
    query := [("Action", "ListUsers"), ("Version", "2010-05-08")]
    headers := [("host", .str "iam.amazonaws.com"),
                ("content-type", .str "application/x-www-form-urlencoded; charset=utf-8"),
                ("x-amz-date", .str "20150830T123600Z")]
    payload := "" }

/-- A query map whose keys are an astral character (U+10000) and U+FF61:
in code-point order U+FF61 comes first, in UTF-16 code-unit order the
astral key's high surrogate (0xD800) comes first. -/
def qAstral : List (String × String) :=
  [(⟨[Char.ofNat 65536]⟩, "1"), ("｡", "2")]

/-- A lowercase hexadecimal digit: `0`–`9` or `a`–`f`. -/
def isLowerHexChar (c : Char) : Prop :=
  (48 ≤ c.toNat ∧ c.toNat ≤ 57) ∨ (97 ≤ c.toNat ∧ c.toNat ≤ 102)

/-- The keys of the canonical headers block, in the order its entries are
emitted (sorted by `caseInsensitiveSort`, then lowercased per entry). -/
def canonicalHeaderKeyOrder (headers : List (String × HeaderValue)) : List String :=
  (jsSort (fun p q => caseInsensitiveLE p.1 q.1) headers).map fun p => formatHeaderKey p.1

/-- The keys of the signed-header list, in the order `createSignedHeaders`
emits them (lowercased, then sorted by the default code-unit comparator). -/
def signedHeaderKeyOrder (headers : List (String × HeaderValue)) : List String :=
  jsSort utf16LE (headers.map fun p => formatHeaderKey p.1)

/-- A character on which the `localeCompare` model is faithful and on which
ICU root collation agrees with code-unit order: `-`, a digit, or a lowercase
letter. -/
def safeChar (c : Char) : Prop :=
  c.toNat = 45 ∨ (48 ≤ c.toNat ∧ c.toNat ≤ 57) ∨ (97 ≤ c.toNat ∧ c.toNat ≤ 122)

instance : DecidablePred safeChar := fun _ => by unfold safeChar; infer_instance

/-! ## Lemmas: characters and strictness -/

theorem forceNat_eq (x : Nat) (f : Nat → Nat) : forceNat x f = f x := by
  cases x <;> rfl

theorem toNat_ofNat_small {n : Nat} (h : n < 55296) : (Char.ofNat n).toNat = n := by
  rw [Char.ofNat, dif_pos (Or.inl h)]
  rfl

theorem lowerChar_toNat (c : Char) :
    (lowerChar c).toNat =
      if 65 ≤ c.toNat ∧ c.toNat ≤ 90 then c.toNat + 32 else c.toNat := by
  unfold lowerChar
  split
  · next h => exact toNat_ofNat_small (by omega)
  · rfl

theorem lowerChar_eq_nl {c : Char} (h : lowerChar c = '\n') : c = '\n' := by
  unfold lowerChar at h
  split at h
  · next hc =>
    have := congrArg Char.toNat h
    rw [toNat_ofNat_small (by omega)] at this
    have h10 : ('\n').toNat = 10 := rfl
    omega
  · exact h

/-! ## Lemmas: `jsSort` -/

theorem mem_jsInsert {le : α → α → Bool} {a x : α} {l : List α} :
    x ∈ jsInsert le a l ↔ x = a ∨ x ∈ l := by
  induction l with
  | nil => simp [jsInsert]
  | cons b l ih =>
    simp only [jsInsert]
    split
    · simp [List.mem_cons]
    · simp only [List.mem_cons, ih]
      tauto

theorem mem_jsSort {le : α → α → Bool} {x : α} {l : List α} :
    x ∈ jsSort le l ↔ x ∈ l := by
  induction l with
  | nil => simp [jsSort]
  | cons a l ih => simp [jsSort, mem_jsInsert, ih]

theorem length_jsInsert (le : α → α → Bool) (a : α) (l : List α) :
    (jsInsert le a l).length = l.length + 1 := by
  induction l with
  | nil => rfl
  | cons b l ih =>
    simp only [jsInsert]
    split
    · rfl
    · simp [ih]

theorem length_jsSort (le : α → α → Bool) (l : List α) :
    (jsSort le l).length = l.length := by
  induction l with
  | nil => rfl
  | cons a l ih => simp [jsSort, length_jsInsert, ih]

theorem map_jsInsert {le : α → α → Bool} {le' : β → β → Bool} {f : α → β}
    (h : ∀ a b, le a b = le' (f a) (f b)) (a : α) (l : List α) :
    (jsInsert le a l).map f = jsInsert le' (f a) (l.map f) := by
  induction l with
  | nil => rfl
  | cons b l ih =>
    simp only [jsInsert, List.map_cons, ← h]
    split <;> simp [ih]

theorem map_jsSort {le : α → α → Bool} {le' : β → β → Bool} {f : α → β}
    (h : ∀ a b, le a b = le' (f a) (f b)) (l : List α) :
    (jsSort le l).map f = jsSort le' (l.map f) := by
  induction l with
  | nil => rfl
  | cons a l ih => simp [jsSort, map_jsInsert h, ih]

theorem jsInsert_congr {le le' : α → α → Bool} {a : α} {l : List α}
    (h : ∀ b ∈ l, le a b = le' a b) : jsInsert le a l = jsInsert le' a l := by
  induction l with
  | nil => rfl
  | cons b l ih =>
    simp only [jsInsert, h b (List.mem_cons_self b l)]
    split
    · rfl
    · rw [ih fun x hx => h x (List.mem_cons_of_mem b hx)]

theorem jsSort_congr {le le' : α → α → Bool} {l : List α}
    (h : ∀ a ∈ l, ∀ b ∈ l, le a b = le' a b) : jsSort le l = jsSort le' l := by
  induction l with
  | nil => rfl
  | cons a l ih =>
    simp only [jsSort]
    rw [ih fun x hx y hy =>
      h x (List.mem_cons_of_mem a hx) y (List.mem_cons_of_mem a hy)]
    exact jsInsert_congr fun b hb =>
      h a (List.mem_cons_self a l) b
        (List.mem_cons_of_mem a (mem_jsSort.mp hb))

/-! ## Lemmas: collation vs code-unit order -/

theorem collationWeight_lt_iff {c d : Char} (hc : safeChar c) (hd : safeChar d) :
    collationWeight c < collationWeight d ↔ c.toNat < d.toNat := by
  unfold safeChar at hc hd
  unfold collationWeight
  rcases hc with hc | hc | hc <;> rcases hd with hd | hd | hd <;>
    split_ifs <;> omega

theorem lexLE_map_collationWeight {l₁ l₂ : List Char}
    (h₁ : ∀ c ∈ l₁, safeChar c) (h₂ : ∀ c ∈ l₂, safeChar c) :
    lexLE (l₁.map collationWeight) (l₂.map collationWeight) =
      lexLE (l₁.map Char.toNat) (l₂.map Char.toNat) := by
  induction l₁ generalizing l₂ with
  | nil => cases l₂ <;> rfl
  | cons c l ih =>
    cases l₂ with
    | nil => rfl
    | cons d m =>
      have hc := h₁ c (List.mem_cons_self c l)
      have hd := h₂ d (List.mem_cons_self d m)
      simp only [List.map_cons, lexLE]
      rw [if_congr (collationWeight_lt_iff hc hd) rfl rfl,
          if_congr (collationWeight_lt_iff hd hc) rfl rfl,
          ih (fun x hx => h₁ x (List.mem_cons_of_mem c hx))
             (fun x hx => h₂ x (List.mem_cons_of_mem d hx))]

theorem utf16_flatten {l : List Char} (h : ∀ c ∈ l, c.toNat < 65536) :
    (l.map charUtf16).flatten = l.map Char.toNat := by
  induction l with
  | nil => rfl
  | cons c l ih =>
    simp only [List.map_cons, List.flatten_cons]
    rw [charUtf16, if_pos (h c (List.mem_cons_self c l)),
        ih fun x hx => h x (List.mem_cons_of_mem c hx)]
    rfl

theorem utf16Units_eq_map_toNat {s : String}
    (h : ∀ c ∈ s.data, c.toNat < 65536) :
    utf16Units s = s.data.map Char.toNat :=
  utf16_flatten h

theorem localeLE_eq_utf16LE {a b : String}
    (ha : ∀ c ∈ a.data, safeChar c) (hb : ∀ c ∈ b.data, safeChar c) :
    localeLE a b = utf16LE a b := by
  have bmp : ∀ {s : String}, (∀ c ∈ s.data, safeChar c) →
      ∀ c ∈ s.data, c.toNat < 65536 := by
    intro s hs c hc
    have := hs c hc
    unfold safeChar at this
    omega
  unfold localeLE utf16LE
  rw [lexLE_map_collationWeight ha hb,
      utf16Units_eq_map_toNat (bmp ha), utf16Units_eq_map_toNat (bmp hb)]

theorem utf16LE_eq_codepointLE {a b : String}
    (ha : ∀ c ∈ a.data, c.toNat < 65536) (hb : ∀ c ∈ b.data, c.toNat < 65536) :
    utf16LE a b = codepointLE a b := by
  unfold utf16LE codepointLE
  rw [utf16Units_eq_map_toNat ha, utf16Units_eq_map_toNat hb]

/-! ## Lemmas: whitespace normalization -/

theorem collapseWsAux_space {fl : Bool} {l : List Char} {c : Char}
    (hm : c ∈ collapseWsAux fl l) (hs : isJsSpace c = true) : c = ' ' := by
  induction l generalizing fl with
  | nil => cases hm
  | cons d m ih =>
    unfold collapseWsAux at hm
    split at hm
    · split at hm
      · exact ih hm
      · rcases List.mem_cons.mp hm with h | h
        · exact h
        · exact ih h
    · next hd =>
      rcases List.mem_cons.mp hm with h | h
      · subst h
        simp [hs] at hd
      · exact ih h

theorem formatHeaderValue_space {v : String} {c : Char}
    (hm : c ∈ (formatHeaderValue v).data) (hs : isJsSpace c = true) : c = ' ' := by
  exact collapseWsAux_space hm hs

theorem nl_not_mem_formatHeaderValue (v : String) :
    '\n' ∉ (formatHeaderValue v).data := by
  intro hm
  have := formatHeaderValue_space hm (by decide)
  simp at this

/-! ## Lemmas: `joinSep` -/

theorem not_mem_joinSep {c : Char} {sep : String} (hsep : c ∉ sep.data)
    {l : List String} (h : ∀ s ∈ l, c ∉ s.data) : c ∉ (joinSep sep l).data := by
  induction l with
  | nil => simp [joinSep]
  | cons s l ih =>
    cases l with
    | nil => exact h s (List.mem_cons_self s [])
    | cons t m =>
      show c ∉ (s ++ sep ++ joinSep sep (t :: m)).data
      simp only [String.data_append, List.mem_append]
      push_neg
      exact ⟨⟨h s (List.mem_cons_self s _), hsep⟩,
        ih fun x hx => h x (List.mem_cons_of_mem s hx)⟩

theorem count_nl_joinSep {l : List String} (hne : l ≠ [])
    (h : ∀ s ∈ l, '\n' ∉ s.data) :
    ((joinSep "\n" l).data.count '\n') = l.length - 1 := by
  induction l with
  | nil => exact absurd rfl hne
  | cons s l ih =>
    cases l with
    | nil =>
      show (s.data.count '\n') = 0
      exact List.count_eq_zero.mpr (h s (List.mem_cons_self s []))
    | cons t m =>
      show ((s ++ "\n" ++ joinSep "\n" (t :: m)).data.count '\n') = _
      simp only [String.data_append, List.count_append]
      rw [List.count_eq_zero.mpr (h s (List.mem_cons_self s _)),
          ih (by simp) fun x hx => h x (List.mem_cons_of_mem s hx)]
      simp
      omega

/-! ## Lemmas: the canonical headers block -/

theorem nl_not_mem_lowerStr {k : String} (hk : '\n' ∉ k.data) :
    '\n' ∉ (lowerStr k).data := by
  intro hm
  simp only [lowerStr, List.mem_map] at hm
  obtain ⟨c, hc, hlc⟩ := hm
  exact hk (lowerChar_eq_nl hlc ▸ hc)

theorem nl_not_mem_entry {k : String} (v : HeaderValue) (hk : '\n' ∉ k.data) :
    '\n' ∉ (formatCanonicalHeaderEntry k v).data := by
  cases v with
  | str s =>
    show '\n' ∉ (formatHeaderKey k ++ ":" ++ formatHeaderValue s).data
    simp only [String.data_append, List.mem_append]
    push_neg
    refine ⟨⟨nl_not_mem_lowerStr hk, ?_⟩, nl_not_mem_formatHeaderValue s⟩
    decide
  | seq vs =>
    exact not_mem_joinSep (by decide)
      fun s hs => by
        obtain ⟨v, _, rfl⟩ := List.mem_map.mp hs
        exact nl_not_mem_formatHeaderValue v

theorem count_nl_createCanonicalHeaders {hs : List (String × HeaderValue)}
    (hne : hs ≠ []) (hk : ∀ p ∈ hs, '\n' ∉ p.1.data) :
    ((createCanonicalHeaders hs).data.count '\n') = hs.length := by
  unfold createCanonicalHeaders
  have hlen : ((jsSort (fun p q => caseInsensitiveLE p.1 q.1) hs).map
      fun p => formatCanonicalHeaderEntry p.1 p.2).length = hs.length := by
    rw [List.length_map, length_jsSort]
  have hlines : ∀ s ∈ (jsSort (fun p q => caseInsensitiveLE p.1 q.1) hs).map
      (fun p => formatCanonicalHeaderEntry p.1 p.2), '\n' ∉ s.data := by
    intro s hsm
    obtain ⟨p, hp, rfl⟩ := List.mem_map.mp hsm
    exact nl_not_mem_entry p.2 (hk p (mem_jsSort.mp hp))
  have hne' : (jsSort (fun p q => caseInsensitiveLE p.1 q.1) hs).map
      (fun p => formatCanonicalHeaderEntry p.1 p.2) ≠ [] := by
    intro h0
    rw [h0] at hlen
    exact hne (List.length_eq_zero.mp hlen.symm)
  rw [String.data_append, List.count_append,
      count_nl_joinSep hne' hlines, hlen]
  have : hs.length ≠ 0 := fun h0 => hne (List.length_eq_zero.mp h0)
  show hs.length - 1 + List.count '\n' '\n'.toString.data = hs.length
  have : List.count '\n' '\n'.toString.data = 1 := by decide
  omega

/-! ## Lemmas: case-folding factorization -/

theorem entry_eq_entryOfLowered (k : String) (v : HeaderValue) :
    formatCanonicalHeaderEntry k v = entryOfLowered (lowerStr k, v) := by
  cases v <;> rfl

/-- The canonical headers block depends on the headers only through the
lowercased-key pairs. -/
theorem createCanonicalHeaders_eq_lowered (hs : List (String × HeaderValue)) :
    createCanonicalHeaders hs =
      joinSep "\n"
        ((jsSort (fun a b => localeLE a.1 b.1)
            (hs.map fun p => (lowerStr p.1, p.2))).map entryOfLowered) ++ "\n" := by
  unfold createCanonicalHeaders
  congr 1
  congr 1
  have h1 : ((jsSort (fun p q => caseInsensitiveLE p.1 q.1) hs).map
        fun p => formatCanonicalHeaderEntry p.1 p.2) =
      ((jsSort (fun p q => caseInsensitiveLE p.1 q.1) hs).map
        fun p => (lowerStr p.1, p.2)).map entryOfLowered := by
    rw [List.map_map]
    exact List.map_congr_left fun p _ => entry_eq_entryOfLowered p.1 p.2
  rw [h1]
  congr 1
  exact @map_jsSort (String × HeaderValue) (String × HeaderValue)
    (fun p q => caseInsensitiveLE p.1 q.1)
    (fun a b => localeLE a.1 b.1) (fun p => (lowerStr p.1, p.2))
    (fun a b => rfl) hs

/-- The signed-header list depends on the headers only through the
lowercased-key pairs. -/
theorem createSignedHeaders_eq_lowered (hs : List (String × HeaderValue)) :
    createSignedHeaders hs =
      joinSep ";"
        (jsSort utf16LE ((hs.map fun p => (lowerStr p.1, p.2)).map Prod.fst)) := by
  unfold createSignedHeaders
  rw [List.map_map]
  rfl

/-! ## Lemmas: digest lengths -/

theorem length_unpackBytes (n x : Nat) : (unpackBytes n x).length = n := by
  induction n generalizing x with
  | zero => rfl
  | succ n ih => simp [unpackBytes, ih]

theorem length_sha256 (m : List Nat) : (sha256 m).length = 32 :=
  length_unpackBytes 32 _

theorem length_hmacSha256 (k m : List Nat) : (hmacSha256 k m).length = 32 := by
  unfold hmacSha256
  exact length_sha256 _

theorem length_bytesToHexChars (l : List Nat) :
    (bytesToHexChars l).length = 2 * l.length := by
  induction l with
  | nil => rfl
  | cons b bs ih =>
    show (bytesToHexChars bs).length + 1 + 1 = _
    rw [ih]
    simp
    omega

theorem mem_unpackBytes_lt {n x b : Nat} (h : b ∈ unpackBytes n x) : b < 256 := by
  induction n generalizing x with
  | zero => cases h
  | succ n ih =>
    rcases List.mem_cons.mp h with h1 | h2
    · exact h1 ▸ Nat.mod_lt _ (by omega)
    · exact ih h2

theorem mem_sha256_lt {m : List Nat} {b : Nat} (h : b ∈ sha256 m) : b < 256 :=
  mem_unpackBytes_lt h

theorem hexDigit_isLowerHex {n : Nat} (h : n < 16) : isLowerHexChar (hexDigit n) := by
  unfold hexDigit isLowerHexChar
  split
  · left
    rw [toNat_ofNat_small (by omega)]
    omega
  · right
    rw [toNat_ofNat_small (by omega)]
    omega

theorem mem_bytesToHexChars {l : List Nat} {c : Char}
    (hl : ∀ b ∈ l, b < 256) (h : c ∈ bytesToHexChars l) : isLowerHexChar c := by
  induction l with
  | nil => cases h
  | cons b bs ih =>
    have hb := hl b (List.mem_cons_self b bs)
    rcases List.mem_cons.mp h with h1 | h2
    · exact h1 ▸ hexDigit_isLowerHex (Nat.div_lt_of_lt_mul (by omega))
    · rcases List.mem_cons.mp h2 with h3 | h4
      · exact h3 ▸ hexDigit_isLowerHex (Nat.mod_lt _ (by omega))
      · exact ih (fun x hx => hl x (List.mem_cons_of_mem b hx)) h4

theorem signature_isLowerHex (d : RequestDescriptor)
    (requestDateTime region service secretAccessKey : String) :
    ∀ c ∈ (createRequestSignature d requestDateTime region service secretAccessKey).data,
      isLowerHexChar c := by
  intro c hc
  refine mem_bytesToHexChars (fun b hb => ?_) hc
  exact mem_sha256_lt hb

theorem length_createRequestSignature (d : RequestDescriptor)
    (requestDateTime region service secretAccessKey : String) :
    (createRequestSignature d requestDateTime region service secretAccessKey).length = 64 := by
  show (bytesToHex _).length = 64
  show (bytesToHexChars _).length = 64
  rw [length_bytesToHexChars, length_hmacSha256]

/-! ## The claims -/

set_option maxRecDepth 1000000
set_option maxHeartbeats 4000000
set_option exponentiation.threshold 4000

/-- C6: the derived signing key is the four-stage HMAC-SHA-256 chain
`k1 = HMAC("AWS4" + secret, date)`, `k2 = HMAC(k1, region)`,
`k3 = HMAC(k2, service)`, `k4 = HMAC(k3, "aws4_request")`; and on the
published vector (secret `wJalrXUtnFEMI/K7MDENG+bPxRfiCYEXAMPLEKEY`, date
`20150830`, region `us-east-1`, service `iam`) its hex encoding is
`c4afb1cc5771d871763a393e44b703571b55cc28424d1a5e86da6ed3c154a4b9`. -/
theorem c6_signing_key_chain :
    (∀ secretAccessKey requestDate region service : String,
      createSigningKeyHmac secretAccessKey requestDate region service =
        hmacSha256
          (hmacSha256
            (hmacSha256
              (hmacSha256 (strBytes ("AWS4" ++ secretAccessKey)) (strBytes requestDate))
              (strBytes region))
            (strBytes service))
          (strBytes "aws4_request")) ∧
    bytesToHex (createSigningKeyHmac "wJalrXUtnFEMI/K7MDENG+bPxRfiCYEXAMPLEKEY"
        "20150830" "us-east-1" "iam") =
      "c4afb1cc5771d871763a393e44b703571b55cc28424d1a5e86da6ed3c154a4b9" :=
  ⟨fun _ _ _ _ => rfl, by decide⟩

/-- C7: the composite `createRequestAuthorization` equals the manual chain
canonical request → signable string → signing key → signature → assembled
header, as the spec describes it. -/
theorem c7_composite_eq_manual_chain
    (d : RequestDescriptor) (requestDateTime region service accessKeyId secretAccessKey : String) :
    createRequestAuthorization d requestDateTime region service accessKeyId secretAccessKey =
      buildAuthorizationHeaderSpec d requestDateTime region service accessKeyId secretAccessKey :=
  rfl

/-- C8: the payload hash of the empty payload is the SHA-256-of-empty
constant `e3b0…b855` (which contains no newline), so every descriptor with
empty payload has a canonical request ending in `\n` followed by exactly
that constant — it is the last line. -/
theorem c8_empty_payload_constant :
    hashRequestPayload "" =
      "e3b0c44298fc1c149afbf4c8996fb92427ae41e4649b934ca495991b7852b855" ∧
    '\n' ∉ ("e3b0c44298fc1c149afbf4c8996fb92427ae41e4649b934ca495991b7852b855" : String).data ∧
    ∀ (m u : String) (q : List (String × String)) (hs : List (String × HeaderValue)),
      ∃ pre,
        createCanonicalRequest ⟨m, u, q, hs, ""⟩ =
          pre ++ "\n" ++
            "e3b0c44298fc1c149afbf4c8996fb92427ae41e4649b934ca495991b7852b855" := by
  refine ⟨by decide, by decide, fun m u q hs => ?_⟩
  refine ⟨m ++ "\n" ++ (u ++ "\n" ++ (createCanonicalQueryString q ++ "\n" ++
    (createCanonicalHeaders hs ++ "\n" ++ createSignedHeaders hs))), ?_⟩
  have hh : hashRequestPayload "" =
      "e3b0c44298fc1c149afbf4c8996fb92427ae41e4649b934ca495991b7852b855" := by decide
  show joinSep "\n" _ = _
  simp only [joinSep, hh, String.append_assoc]

/-- C9: the pipeline validates nothing: for arbitrary strings — including a
malformed `requestDateTime` and headers with no `host` entry (the model
places no `host` constraint on the header list) — the step functions are
total and return their usual shapes, with the credential-scope date being
whatever the first 8 characters of `requestDateTime` are; signatures are
always 64 hex characters and signing keys 32 bytes. -/
theorem c9_total_no_validation :
    (∀ requestDateTime : String,
      extractRequestDate requestDateTime = ⟨requestDateTime.data.take 8⟩) ∧
    (∀ canonicalRequest requestDateTime region service : String,
      createRequestSignable canonicalRequest requestDateTime region service =
        algorithm ++ "\n" ++
          (requestDateTime ++ "\n" ++
            ((extractRequestDate requestDateTime ++ "/" ++ region ++ "/" ++ service ++
                "/aws4_request") ++ "\n" ++
              createCanonicalRequestHash canonicalRequest))) ∧
    (∀ (d : RequestDescriptor)
        (requestDateTime region service accessKeyId secretAccessKey : String),
      createRequestAuthorization d requestDateTime region service accessKeyId secretAccessKey =
        algorithm ++ " Credential=" ++
          (accessKeyId ++ "/" ++
            (extractRequestDate requestDateTime ++ "/" ++ region ++ "/" ++ service ++
              "/aws4_request")) ++
          ", SignedHeaders=" ++ createSignedHeaders d.headers ++
          ", Signature=" ++
            createRequestSignature d requestDateTime region service secretAccessKey) ∧
    (∀ (secretAccessKey requestDate region service : String),
      (createSigningKeyHmac secretAccessKey requestDate region service).length = 32) ∧
    (∀ (d : RequestDescriptor)
        (requestDateTime region service secretAccessKey : String),
      (createRequestSignature d requestDateTime region service secretAccessKey).length = 64) ∧
    createRequestSignable "" "bad" "r" "s" =
      "AWS4-HMAC-SHA256\nbad\nbad/r/s/aws4_request\ne3b0c44298fc1c149afbf4c8996fb92427ae41e4649b934ca495991b7852b855" := by
  refine ⟨fun _ => rfl, fun _ _ _ _ => rfl, fun _ _ _ _ _ _ => rfl,
    fun _ _ _ _ => length_hmacSha256 _ _,
    fun d rdt r s sk => length_createRequestSignature d rdt r s sk, by decide⟩

/-- C1 (failing input): for a sequence-valued header the source's array
branch emits only the normalized elements joined with `,` and never the
`lowercase(key):` prefix.  On
`headers = {host: "example.com", x-multi: ["a", "b"]}` the canonical
headers block contains the line `a,b`, not `x-multi:a,b`: the entry differs
from the `lowercase(key):joined values` the claim (and the code's own AWS
reference) prescribes. -/
theorem c1_sequence_header_drops_key :
    createCanonicalRequest
        ⟨"GET", "/", [], [("host", .str "example.com"), ("x-multi", .seq ["a", "b"])], ""⟩ =
      "GET\n/\n\nhost:example.com\na,b\n\nhost;x-multi\ne3b0c44298fc1c149afbf4c8996fb92427ae41e4649b934ca495991b7852b855" ∧
    formatCanonicalHeaderEntry "x-multi" (.seq ["a", "b"]) = "a,b" ∧
    formatCanonicalHeaderEntry "x-multi" (.seq ["a", "b"]) ≠
      formatHeaderKey "x-multi" ++ ":" ++
        joinSep "," (["a", "b"].map formatHeaderValue) := by
  refine ⟨by decide, by decide, by decide⟩

/-- C2: `createRequestAuthorization` returns exactly
`AWS4-HMAC-SHA256 Credential=<accessKeyId>/<date>/<region>/<service>/aws4_request,
SignedHeaders=<h1;h2;…>, Signature=<hex>` — the algorithm tag is that
literal, the date is the first 8 characters of `requestDateTime`, the
signature is always 64 lowercase-hex characters — and on the reference
input the credential part is `AKIDEXAMPLE/20150830/us-east-1/iam/aws4_request`,
the signed-header list `content-type;host;x-amz-date`, and the whole header
comes out as the published vector. -/
theorem c2_authorization_format :
    (∀ (d : RequestDescriptor)
        (requestDateTime region service accessKeyId secretAccessKey : String),
      createRequestAuthorization d requestDateTime region service accessKeyId secretAccessKey =
        algorithm ++ " Credential=" ++
          (accessKeyId ++ "/" ++
            (extractRequestDate requestDateTime ++ "/" ++ region ++ "/" ++ service ++
              "/aws4_request")) ++
          ", SignedHeaders=" ++ createSignedHeaders d.headers ++
          ", Signature=" ++
            createRequestSignature d requestDateTime region service secretAccessKey) ∧
    algorithm = "AWS4-HMAC-SHA256" ∧
    (∀ (d : RequestDescriptor)
        (requestDateTime region service secretAccessKey : String),
      (createRequestSignature d requestDateTime region service secretAccessKey).length = 64 ∧
      ∀ c ∈ (createRequestSignature d requestDateTime region service secretAccessKey).data,
        isLowerHexChar c) ∧
    createRequestAuthorization refDesc "20150830T123600Z" "us-east-1" "iam"
        "AKIDEXAMPLE" "wJalrXUtnFEMI/K7MDENG+bPxRfiCYEXAMPLEKEY" =
      "AWS4-HMAC-SHA256 Credential=AKIDEXAMPLE/20150830/us-east-1/iam/aws4_request, SignedHeaders=content-type;host;x-amz-date, Signature=5d672d79c15b13162d9279b0855cfba6789a8edb4c82c400e06b5924a6f2b5d7" := by
  refine ⟨fun _ _ _ _ _ _ => rfl, rfl,
    fun d rdt r s sk =>
      ⟨length_createRequestSignature d rdt r s sk, signature_isLowerHex d rdt r s sk⟩,
    by decide⟩

/-- C3 (counterexample): on header keys `a`, `host`, `~` the canonical
headers block sorts `~` first (ICU root collation puts symbols before
letters), while the signed-header list sorts it last (code-unit order puts
`~` = 126 after the letters): the relative orders of the two artifacts
differ, so the claim's "same relative order" fails. -/
theorem c3_counterexample_order_differs :
    createSignedHeaders [("a", .str "v"), ("host", .str "h"), ("~", .str "w")] =
      "a;host;~" ∧
    createCanonicalHeaders [("a", .str "v"), ("host", .str "h"), ("~", .str "w")] =
      "~:w\na:v\nhost:h\n" ∧
    canonicalHeaderKeyOrder [("a", .str "v"), ("host", .str "h"), ("~", .str "w")] ≠
      signedHeaderKeyOrder [("a", .str "v"), ("host", .str "h"), ("~", .str "w")] :=
  ⟨by decide, by decide, by decide⟩

/-- C3 (amended): the signed-header list is exactly the lowercased header
keys sorted by code-unit lexicographic order and joined with `;`; and
whenever every lowercased key consists only of hyphens, digits and
lowercase letters — in particular for every ordinary HTTP header name —
that order coincides with the relative order of the canonical headers
block's entries (the `localeCompare`-on-lowercase sort). -/
theorem c3_signed_headers_order (hs : List (String × HeaderValue))
    (h : ∀ p ∈ hs, ∀ c ∈ (formatHeaderKey p.1).data, safeChar c) :
    createSignedHeaders hs = joinSep ";" (signedHeaderKeyOrder hs) ∧
    canonicalHeaderKeyOrder hs = signedHeaderKeyOrder hs := by
  refine ⟨rfl, ?_⟩
  unfold canonicalHeaderKeyOrder signedHeaderKeyOrder
  rw [@map_jsSort (String × HeaderValue) String
      (fun p q => caseInsensitiveLE p.1 q.1) (fun a b => localeLE a b)
      (fun p => formatHeaderKey p.1) (fun a b => rfl) hs]
  apply jsSort_congr
  intro a ha b hb
  obtain ⟨p, hp, rfl⟩ := List.mem_map.mp ha
  obtain ⟨q, hq, rfl⟩ := List.mem_map.mp hb
  exact localeLE_eq_utf16LE (h p hp) (h q hq)

/-- C3 (witness): the amended theorem applied to the reference headers. -/
theorem c3_signed_headers_order_witness :
    (∀ p ∈ refDesc.headers, ∀ c ∈ (formatHeaderKey p.1).data, safeChar c) ∧
    canonicalHeaderKeyOrder refDesc.headers = signedHeaderKeyOrder refDesc.headers :=
  have h : ∀ p ∈ refDesc.headers, ∀ c ∈ (formatHeaderKey p.1).data, safeChar c := by
    decide
  ⟨h, (c3_signed_headers_order refDesc.headers h).2⟩

/-- C4: two descriptors that differ only in the letter-case of their header
keys (same method, uri, query, payload; headers pointwise equal after
lowercasing the keys) produce the same canonical request, the same
signed-header list, and the same signature. -/
theorem c4_header_case_folding
    (d₁ d₂ : RequestDescriptor)
    (requestDateTime region service secretAccessKey : String)
    (hm : d₁.method = d₂.method) (hu : d₁.uri = d₂.uri) (hq : d₁.query = d₂.query)
    (hp : d₁.payload = d₂.payload)
    (hh : d₁.headers.map (fun p => (lowerStr p.1, p.2)) =
          d₂.headers.map (fun p => (lowerStr p.1, p.2))) :
    createCanonicalRequest d₁ = createCanonicalRequest d₂ ∧
    createSignedHeaders d₁.headers = createSignedHeaders d₂.headers ∧
    createRequestSignature d₁ requestDateTime region service secretAccessKey =
      createRequestSignature d₂ requestDateTime region service secretAccessKey := by
  have hsh : createSignedHeaders d₁.headers = createSignedHeaders d₂.headers := by
    rw [createSignedHeaders_eq_lowered, createSignedHeaders_eq_lowered, hh]
  have hch : createCanonicalHeaders d₁.headers = createCanonicalHeaders d₂.headers := by
    rw [createCanonicalHeaders_eq_lowered, createCanonicalHeaders_eq_lowered, hh]
  have hcr : createCanonicalRequest d₁ = createCanonicalRequest d₂ := by
    unfold createCanonicalRequest
    rw [hm, hu, hq, hp, hsh, hch]
  refine ⟨hcr, hsh, ?_⟩
  unfold createRequestSignature
  rw [hcr]

/-- C4 (witness): the theorem applied to the reference request and its
all-lowercase-keys variant. -/
theorem c4_header_case_folding_witness :
    (refDesc.method = refDescLower.method ∧ refDesc.uri = refDescLower.uri ∧
     refDesc.query = refDescLower.query ∧ refDesc.payload = refDescLower.payload ∧
     refDesc.headers.map (fun p => (lowerStr p.1, p.2)) =
       refDescLower.headers.map (fun p => (lowerStr p.1, p.2))) ∧
    createCanonicalRequest refDesc = createCanonicalRequest refDescLower ∧
    createSignedHeaders refDesc.headers = createSignedHeaders refDescLower.headers ∧
    createRequestSignature refDesc "20150830T123600Z" "us-east-1" "iam"
        "wJalrXUtnFEMI/K7MDENG+bPxRfiCYEXAMPLEKEY" =
      createRequestSignature refDescLower "20150830T123600Z" "us-east-1" "iam"
        "wJalrXUtnFEMI/K7MDENG+bPxRfiCYEXAMPLEKEY" :=
  ⟨⟨rfl, rfl, rfl, rfl, by decide⟩,
    c4_header_case_folding refDesc refDescLower "20150830T123600Z" "us-east-1" "iam"
      "wJalrXUtnFEMI/K7MDENG+bPxRfiCYEXAMPLEKEY" rfl rfl rfl rfl (by decide)⟩

/-- C5 (counterexample): on the query `qAstral` — keys U+10000 and U+FF61 —
the produced canonical query string orders the astral key first (its
UTF-16 high surrogate 0xD800 precedes 0xFF61), which is not the exact
code-point order the claim states (0xFF61 < 0x10000). -/
theorem c5_counterexample_codeunit_order :
    createCanonicalQueryString qAstral = (⟨[Char.ofNat 65536]⟩ : String) ++ "=1&｡=2" ∧
    createCanonicalQueryString qAstral ≠
      joinSep "&"
        ((jsSort (fun p q => codepointLE p.1 q.1) qAstral).map fun p => p.1 ++ "=" ++ p.2) :=
  ⟨by decide, by decide⟩

/-- C5 (amended): the canonical query string takes the keys verbatim, sorts
the pairs by UTF-16 code-unit order of the keys (case-sensitively — unlike
the case-insensitive header sort), emits `key=value` joined with `&`, and
the empty query yields the empty string; for queries whose keys contain no
astral characters, code-unit order coincides with exact code-point order. -/
theorem c5_query_codepoint_order (q : List (String × String))
    (h : ∀ p ∈ q, ∀ c ∈ p.1.data, c.toNat < 65536) :
    createCanonicalQueryString q =
      joinSep "&"
        ((jsSort (fun p q' => utf16LE p.1 q'.1) q).map fun p => p.1 ++ "=" ++ p.2) ∧
    createCanonicalQueryString [] = "" ∧
    createCanonicalQueryString q =
      joinSep "&"
        ((jsSort (fun p q' => codepointLE p.1 q'.1) q).map fun p => p.1 ++ "=" ++ p.2) := by
  refine ⟨rfl, rfl, ?_⟩
  unfold createCanonicalQueryString
  congr 1
  congr 1
  apply jsSort_congr
  intro a ha b hb
  exact utf16LE_eq_codepointLE (h a ha) (h b hb)

/-- C5 (witness): the amended theorem applied to the reference query. -/
theorem c5_query_codepoint_order_witness :
    (∀ p ∈ refDesc.query, ∀ c ∈ p.1.data, c.toNat < 65536) ∧
    createCanonicalQueryString refDesc.query =
      joinSep "&"
        ((jsSort (fun p q' => codepointLE p.1 q'.1) refDesc.query).map
          fun p => p.1 ++ "=" ++ p.2) :=
  have h : ∀ p ∈ refDesc.query, ∀ c ∈ p.1.data, c.toNat < 65536 := by decide
  ⟨h, (c5_query_codepoint_order refDesc.query h).2.2⟩

/-- C10 (counterexample): normalization of header *values* removes all
newlines, but nothing normalizes header *keys*: with the two headers
`host` and `x\ny` the canonical headers block contains 3 newlines, not the
2 the claim's "exactly one line per header key plus the trailing newline"
predicts. -/
theorem c10_counterexample_newline_in_key :
    ((createCanonicalHeaders [("host", .str "h"), ("x\ny", .str "v")]).data.count '\n') = 3 ∧
    ([("host", HeaderValue.str "h"), ("x\ny", HeaderValue.str "v")] : List (String × HeaderValue)).length = 2 :=
  ⟨by decide, rfl⟩

/-- C10 (amended): every normalized header value contains no newline — every
whitespace character surviving `trim` + `\s+`-collapse is a single space —
so for every descriptor with at least one header (the `host` contract
guarantees that) whose header *keys* contain no newline, the canonical
headers block has exactly one line per header key: its newline count equals
the number of headers, the last character being the trailing newline. -/
theorem c10_no_newline_injection (hs : List (String × HeaderValue))
    (hne : hs ≠ []) (hk : ∀ p ∈ hs, '\n' ∉ p.1.data) :
    (∀ v : String, ∀ c ∈ (formatHeaderValue v).data, isJsSpace c = true → c = ' ') ∧
    (∀ v : String, '\n' ∉ (formatHeaderValue v).data) ∧
    ((createCanonicalHeaders hs).data.count '\n') = hs.length ∧
    ∃ pre, createCanonicalHeaders hs = pre ++ "\n" :=
  ⟨fun _ _ hc hsp => formatHeaderValue_space hc hsp,
   fun v => nl_not_mem_formatHeaderValue v,
   count_nl_createCanonicalHeaders hne hk,
   by exact ⟨_, rfl⟩⟩

/-- C10 (witness): the amended theorem applied to the reference headers. -/
theorem c10_no_newline_injection_witness :
    (refDesc.headers ≠ [] ∧ ∀ p ∈ refDesc.headers, '\n' ∉ p.1.data) ∧
    ((createCanonicalHeaders refDesc.headers).data.count '\n') = refDesc.headers.length :=
  ⟨⟨by decide, by decide⟩,
    (c10_no_newline_injection refDesc.headers (by decide) (by decide)).2.2.1⟩

end Sig4

